import Mathlib

/-!
Verification of the build-automation agent (`automation_agent.py`).

This file is a shallow embedding of the parts of the program relevant to the
stated claims:

* the Python dict `current_files` (insertion-ordered association list),
* `ClaudeCoordinator._extract_json` (the regex search semantics are compiled
  by hand into list functions; see the comments at each pattern),
* `ClaudeCoordinator._fallback_analysis` and `_fallback_generation`,
* the source-snippet construction inside `ClaudeCoordinator.fix_build_errors`,
* the fix loop `BuildAutomationGUI.monitor_and_fix_with_claude`, modelled as a
  total function over an environment of oracles (one oracle per external call
  site), producing a trace of events (one event per externally visible action).

Machine integers do not occur; the advisor confidence (a Python float in
`[0, 1]` compared against `0.3`) is modelled as a rational number.  The
cancellation flag `automation_running` is GUI-thread concurrency and is held
`true` throughout (an uncancelled run); all claims concern uncancelled runs.

A small JSON value type and a fuelled JSON reader (`parseJsonL`) serve purely
as the semantic notion of "string that parses to a given JSON object" used by
claim C9; they are evaluated only at concrete inputs.
-/

/-! ### The Python dict of file contents

`current_files` in the source is a `dict` from file name to content.  Python
dict assignment replaces the value in place when the key exists and appends
otherwise, preserving insertion order; an association list with `setKey`
models this exactly. -/

abbrev Files := List (String × String)

/-- Lookup in a Python dict (first, and only, binding of the key). -/
def getKey? : Files → String → Option String
  | [], _ => none
  | (k, v) :: rest, key => if k = key then some v else getKey? rest key

/-- Python dict assignment `d[key] = v`: replace in place or append. -/
def setKey : Files → String → String → Files
  | [], key, v => [(key, v)]
  | (k, w) :: rest, key, v =>
      if k = key then (k, v) :: rest else (k, w) :: setKey rest key v

/-- Python truthiness of an optional string (`None` and `""` are falsy);
the source guards every fix application with `if fixes.get(...):`. -/
def truthy : Option String → Bool
  | none => false
  | some s => s ≠ ""

/-! ### Substring containment (Python's `needle in haystack`) -/

/-- `listContains pat l` is Python's `pat in l` on character lists. -/
def listContains (pat : List Char) : List Char → Bool
  | [] => pat.isEmpty
  | c :: rest => pat.isPrefixOf (c :: rest) || listContains pat rest

/-- `strContains pat s` is Python's `pat in s`. -/
def strContains (pat s : String) : Bool :=
  listContains pat.data s.data

/-- `strEndsWith suffix s` is Python's `s.endswith(suffix)` (by code
points). -/
def strEndsWith (suffix s : String) : Bool :=
  List.isSuffixOf suffix.data s.data

/-! ### Whitespace, as matched by Python's `\s` on ASCII text -/

def isPySpace (c : Char) : Bool :=
  c = ' ' || c = '\t' || c = '\n' || c = '\r' || c = '\x0b' || c = '\x0c'

/-- Strip trailing `\s` characters (the greedy `\s*` before a closing
fence consumes exactly the maximal trailing whitespace run of the group). -/
def rtrimSpace (l : List Char) : List Char :=
  (l.reverse.dropWhile isPySpace).reverse

/-! ### `ClaudeCoordinator._extract_json`

The source runs three `re.search` calls in order (`re.DOTALL` throughout):

1. ```` ```json\s*(.*?)\s*``` ````
2. ```` ```\s*(.*?)\s*``` ````
3. `\{.*\}`

and falls back to the raw text.  Each pattern is compiled by hand:

* Patterns 1 and 2 start with a literal fence, so the leftmost match starts
  at the first fence occurrence that is followed (after optional whitespace)
  by another fence.  If the first occurrence has no closing fence anywhere
  after it, no later occurrence can have one either (a later `` ```json `` /
  `` ``` `` occurrence itself contains a fence after the first one, and a
  fence straddling the first occurrence's end would imply a closing fence the
  first search would already have found), so searching only from the first
  occurrence is faithful.  The lazy group `(.*?)` ends at the first closing
  fence, and the surrounding greedy `\s*` strip exactly the whitespace
  adjacent to the delimiters, so the captured group is the text between the
  two fences with leading and trailing whitespace removed.
* Pattern 3 with `re.DOTALL` and a greedy `.*` matches from the first `{` to
  the last `}` of the whole text, provided the first `{` precedes the last
  `}`. -/

/-- Split a character list at the first occurrence of `pat`:
`splitFirst pat l = some (pre, post)` iff `l = pre ++ pat ++ post` with the
occurrence leftmost. -/
def splitFirst (pat : List Char) : List Char → Option (List Char × List Char)
  | [] => none
  | c :: rest =>
      if pat.isPrefixOf (c :: rest) then some ([], (c :: rest).drop pat.length)
      else
        match splitFirst pat rest with
        | some (pre, post) => some (c :: pre, post)
        | none => none

/-- The three-backtick fence (written via escapes; see the file header). -/
def ticks : List Char := ['\x60', '\x60', '\x60']

/-- The labelled fence `` ```json ``. -/
def ticksJson : List Char := ticks ++ ['j', 's', 'o', 'n']

/-- Search 1: ```` ```json\s*(.*?)\s*``` ````. -/
def pattern1 (text : List Char) : Option (List Char) :=
  match splitFirst ticksJson text with
  | none => none
  | some (_, rest) =>
      match splitFirst ticks (rest.dropWhile isPySpace) with
      | some (g, _) => some (rtrimSpace g)
      | none => none

/-- Search 2: ```` ```\s*(.*?)\s*``` ````. -/
def pattern2 (text : List Char) : Option (List Char) :=
  match splitFirst ticks text with
  | none => none
  | some (_, rest) =>
      match splitFirst ticks (rest.dropWhile isPySpace) with
      | some (g, _) => some (rtrimSpace g)
      | none => none

/-- Search 3: `\{.*\}` under `re.DOTALL`: first `{` through last `}`. -/
def pattern3 (text : List Char) : Option (List Char) :=
  match text.findIdx? (fun c => c == '\x7b'),
        text.reverse.findIdx? (fun c => c == '\x7d') with
  | some i, some jr =>
      let j := text.length - 1 - jr
      if i < j then some ((text.drop i).take (j - i + 1)) else none
  | _, _ => none

/-- `ClaudeCoordinator._extract_json`, on character lists. -/
def extract_json_list (text : List Char) : List Char :=
  match pattern1 text with
  | some g => g
  | none =>
      match pattern2 text with
      | some g => g
      | none =>
          match pattern3 text with
          | some g => g
          | none => text

/-- `ClaudeCoordinator._extract_json`. -/
def extract_json (s : String) : String :=
  String.mk (extract_json_list s.data)

/-! ### A JSON reader (semantic device for C9)

`json.loads` is Python's standard library, external to the repository; this
reader is the formal meaning of "the string parses to that JSON object".  It
is a plain fuelled recursive-descent reader, evaluated only at concrete
inputs. -/

inductive JVal where
  | jnull : JVal
  | jbool : Bool → JVal
  | jnum : String → JVal
  | jstr : String → JVal
  | jarr : List JVal → JVal
  | jobj : List (String × JVal) → JVal

/-- Decode one escape character of a JSON string literal. -/
def jsonUnescape (c : Char) : Char :=
  if c = 'b' then '\x08'
  else if c = 'f' then '\x0c'
  else if c = 'n' then '\n'
  else if c = 'r' then '\r'
  else if c = 't' then '\t'
  else c

def hexVal? (c : Char) : Option Nat :=
  if '0' ≤ c ∧ c ≤ '9' then some (c.toNat - '0'.toNat)
  else if 'a' ≤ c ∧ c ≤ 'f' then some (c.toNat - 'a'.toNat + 10)
  else if 'A' ≤ c ∧ c ≤ 'F' then some (c.toNat - 'A'.toNat + 10)
  else none

/-- Read the body of a JSON string literal (after the opening quote),
returning the decoded characters and the remaining input. -/
def readStrBody : List Char → Option (List Char × List Char)
  | [] => none
  | '"' :: rest => some ([], rest)
  | '\\' :: 'u' :: a :: b :: c :: d :: rest =>
      match hexVal? a, hexVal? b, hexVal? c, hexVal? d with
      | some x, some y, some z, some w =>
          match readStrBody rest with
          | some (s, r) => some (Char.ofNat (((x * 16 + y) * 16 + z) * 16 + w) :: s, r)
          | none => none
      | _, _, _, _ => none
  | '\\' :: e :: rest =>
      match readStrBody rest with
      | some (s, r) => some (jsonUnescape e :: s, r)
      | none => none
  | c :: rest =>
      match readStrBody rest with
      | some (s, r) => some (c :: s, r)
      | none => none

def isNumChar (c : Char) : Bool :=
  c.isDigit || c = '-' || c = '+' || c = '.' || c = 'e' || c = 'E'

mutual

/-- Read one JSON value (fuel strictly decreases on every call). -/
def readVal : Nat → List Char → Option (JVal × List Char)
  | 0, _ => none
  | fuel + 1, l =>
      match l.dropWhile isPySpace with
      | [] => none
      | '\x7b' :: rest => readFields fuel [] rest true
      | '[' :: rest => readElems fuel [] rest true
      | '\"' :: rest =>
          match readStrBody rest with
          | some (s, r) => some (.jstr (String.mk s), r)
          | none => none
      | 't' :: 'r' :: 'u' :: 'e' :: rest => some (.jbool true, rest)
      | 'f' :: 'a' :: 'l' :: 's' :: 'e' :: rest => some (.jbool false, rest)
      | 'n' :: 'u' :: 'l' :: 'l' :: rest => some (.jnull, rest)
      | c :: rest =>
          if c.isDigit || c = '-' then
            some (.jnum (String.mk ((c :: rest).takeWhile isNumChar)),
                  (c :: rest).dropWhile isNumChar)
          else none

/-- Read the fields of a JSON object, after the opening brace or a comma. -/
def readFields : Nat → List (String × JVal) → List Char → Bool →
    Option (JVal × List Char)
  | 0, _, _, _ => none
  | fuel + 1, acc, l, first =>
      match l.dropWhile isPySpace with
      | '\x7d' :: rest =>
          if first ∧ acc.isEmpty then some (.jobj acc.reverse, rest) else none
      | '\"' :: rest =>
          match readStrBody rest with
          | some (k, r) =>
              match r.dropWhile isPySpace with
              | ':' :: r2 =>
                  match readVal fuel r2 with
                  | some (v, r3) =>
                      match r3.dropWhile isPySpace with
                      | ',' :: r4 =>
                          readFields fuel ((String.mk k, v) :: acc) r4 false
                      | '\x7d' :: r4 =>
                          some (.jobj (((String.mk k, v) :: acc).reverse), r4)
                      | _ => none
                  | none => none
              | _ => none
          | none => none
      | _ => none

/-- Read the elements of a JSON array, after the opening bracket or a comma. -/
def readElems : Nat → List JVal → List Char → Bool →
    Option (JVal × List Char)
  | 0, _, _, _ => none
  | fuel + 1, acc, l, first =>
      match l.dropWhile isPySpace with
      | ']' :: rest =>
          if first ∧ acc.isEmpty then some (.jarr acc.reverse, rest) else none
      | _ =>
          match readVal fuel l with
          | some (v, r) =>
              match r.dropWhile isPySpace with
              | ',' :: r2 => readElems fuel (v :: acc) r2 false
              | ']' :: r2 => some (.jarr ((v :: acc).reverse), r2)
              | _ => none
          | none => none

end

/-- The meaning of "`l` parses as JSON": read one value and require only
whitespace to remain. -/
def parseJsonL (l : List Char) : Option JVal :=
  match readVal (2 * l.length + 2) l with
  | some (v, rest) => if (rest.dropWhile isPySpace).isEmpty then some v else none
  | none => none

def parseJson (s : String) : Option JVal :=
  parseJsonL s.data

/-! ### `ClaudeCoordinator._fallback_analysis`

Python's `set` has unspecified iteration order, so `list(dependencies)` is
modelled as a list built with order-preserving insertion (`addDep`); every
theorem about the dependency list is a membership statement, except the
single-dependency scenario, where order is irrelevant. -/

structure Analysis where
  dependencies : List String
  cpp_standard : String
  source_files : List String
  special_requirements : String
deriving DecidableEq

/-- `set.add`: insert if absent. -/
def addDep (deps : List String) (d : String) : List String :=
  if d ∈ deps then deps else deps ++ [d]

/-- The body of the `for filename, content in files.items()` loop. -/
def scanFile (st : List String × List String) (fc : String × String) :
    List String × List String :=
  let srcs := if strEndsWith ".cpp" fc.1 || strEndsWith ".cc" fc.1
              then st.2 ++ [fc.1] else st.2
  let deps := st.1
  let deps := if strContains "#include <boost" fc.2 then addDep deps "boost" else deps
  let deps := if strContains "#include <openssl" fc.2 then addDep deps "openssl" else deps
  let deps := if strContains "#include <curl" fc.2 then addDep deps "curl" else deps
  let deps := if strContains "nlohmann/json" fc.2 then addDep deps "nlohmann-json" else deps
  (deps, srcs)

/-- `ClaudeCoordinator._fallback_analysis`. -/
def fallback_analysis (files : Files) : Analysis :=
  let st := files.foldl scanFile ([], [])
  { dependencies := st.1
    cpp_standard := "17"
    source_files := st.2
    special_requirements := "" }

/-! ### `ClaudeCoordinator._fallback_generation`

`json.dumps(vcpkg, indent=2)` is rendered literally for the fixed key
structure `name` / `version` / `dependencies`; `str.lower()` is modelled on
ASCII (`Char.toLower`), which is exact for ASCII project names. -/

def pyLower (s : String) : String :=
  String.mk (s.data.map Char.toLower)

/-- `str.replace(" ", "-")` (single-character pattern, hence a map). -/
def pyHyphen (s : String) : String :=
  String.mk (s.data.map fun c => if c = ' ' then '-' else c)

def hexDigit (n : Nat) : Char :=
  if n < 10 then Char.ofNat ('0'.toNat + n) else Char.ofNat ('a'.toNat + n - 10)

def uEscape (n : Nat) : List Char :=
  ['\\', 'u', hexDigit (n / 4096 % 16), hexDigit (n / 256 % 16),
   hexDigit (n / 16 % 16), hexDigit (n % 16)]

/-- One character under `json.dumps` default (`ensure_ascii=True`) escaping:
everything outside printable ASCII is `\uXXXX`-escaped (surrogate pairs
beyond the BMP). -/
def jsonEscapeChar (c : Char) : List Char :=
  if c = '\"' then ['\\', '\"']
  else if c = '\\' then ['\\', '\\']
  else if c = '\n' then ['\\', 'n']
  else if c = '\r' then ['\\', 'r']
  else if c = '\t' then ['\\', 't']
  else if c = '\x08' then ['\\', 'b']
  else if c = '\x0c' then ['\\', 'f']
  else if c.toNat < 0x20 ∨ 0x7e < c.toNat then
    if c.toNat ≤ 0xffff then uEscape c.toNat
    else
      uEscape (0xd800 + (c.toNat - 0x10000) / 1024) ++
      uEscape (0xdc00 + (c.toNat - 0x10000) % 1024)
  else [c]

def jsonQuote (s : String) : String :=
  String.mk ('\"' :: ((s.data.map jsonEscapeChar).flatten ++ ['\"']))

/-- `json.dumps` rendering of the dependency list at `indent=2`, nested one
level deep. -/
def renderDeps (deps : List String) : String :=
  match deps with
  | [] => "[]"
  | _ =>
      "[\n" ++ String.intercalate ",\n" (deps.map fun d => "    " ++ jsonQuote d)
      ++ "\n  ]"

/-- `json.dumps({"name": nm, "version": "1.0.0", "dependencies": deps}, indent=2)`. -/
def vcpkgDump (nm : String) (deps : List String) : String :=
  "\x7b\n  \"name\": " ++ jsonQuote nm ++
  ",\n  \"version\": \"1.0.0\",\n  \"dependencies\": " ++ renderDeps deps ++ "\n\x7d"

/-- The CMake f-string template of `_fallback_generation`. -/
def cmakeTemplate (project_name cpp_standard : String) (srcs : List String) : String :=
  "cmake_minimum_required(VERSION 3.16)\nproject(" ++ project_name ++
  ")\n\nset(CMAKE_CXX_STANDARD " ++ cpp_standard ++
  ")\nset(CMAKE_CXX_STANDARD_REQUIRED ON)\n\nadd_executable(" ++ project_name ++
  " " ++ String.intercalate " " srcs ++ ")\n"

/-- The workflow f-string template of `_fallback_generation`; it contains no
placeholders at all (in particular no reference to `target_os`). -/
def workflowTemplate : String :=
  "name: Build\non: [push, pull_request]\njobs:\n  build:\n    runs-on: ubuntu-latest\n    steps:\n    - uses: actions/checkout@v3\n    - name: Build\n      run: |\n        mkdir build && cd build\n        cmake .. && make\n"

/-- `ClaudeCoordinator._fallback_generation`. -/
def fallback_generation (project_name : String) (analysis : Analysis)
    (target_os : List String) : Files :=
  let _ := target_os
  [("vcpkg.json", vcpkgDump (pyHyphen (pyLower project_name)) analysis.dependencies),
   ("CMakeLists.txt", cmakeTemplate project_name analysis.cpp_standard analysis.source_files),
   ("workflow.yml", workflowTemplate)]

/-! ### Source snippets in `ClaudeCoordinator.fix_build_errors`

`re.findall(r'([a-zA-Z0-9_/]+\.\w+):\d+:\d+:', error_log)` is compiled to a
maximal-munch scanner: each quantified class excludes the literal character
required right after it (`.` is not a filename-class character, `:` is not a
word or digit character), so greedy matching needs no backtracking, and
`findall` scans left to right, resuming after each non-overlapping match.
`\w` and `\d` are modelled on ASCII. -/

def isFnameChar (c : Char) : Bool := c.isAlphanum || c = '_' || c = '/'

def isWordChar (c : Char) : Bool := c.isAlphanum || c = '_'

/-- Try to match the diagnostic pattern at the head of `l`; on success return
the capture group (the file name) and the rest of the input after the match. -/
def matchDiag (l : List Char) : Option (List Char × List Char) :=
  let p1 := l.takeWhile isFnameChar
  match p1.isEmpty, l.dropWhile isFnameChar with
  | false, '.' :: r2 =>
      let p2 := r2.takeWhile isWordChar
      match p2.isEmpty, r2.dropWhile isWordChar with
      | false, ':' :: r4 =>
          match (r4.takeWhile Char.isDigit).isEmpty, r4.dropWhile Char.isDigit with
          | false, ':' :: r6 =>
              match (r6.takeWhile Char.isDigit).isEmpty, r6.dropWhile Char.isDigit with
              | false, ':' :: r8 => some (p1 ++ '.' :: p2, r8)
              | _, _ => none
          | _, _ => none
      | _, _ => none
  | _, _ => none

/-- `re.findall`, fuelled by the input length: every step either advances one
character or consumes a whole match (at least six characters), so fuel
`length + 1` is never exhausted. -/
def findDiagAux : Nat → List Char → List (List Char)
  | 0, _ => []
  | _ + 1, [] => []
  | fuel + 1, c :: rest =>
      match matchDiag (c :: rest) with
      | some (cap, after) => cap :: findDiagAux fuel after
      | none => findDiagAux fuel rest

def findDiagFiles (l : List Char) : List (List Char) :=
  findDiagAux (l.length + 1) l

/-- Deduplicate keeping first occurrences.  This models `set(error_files[:3])`;
Python's set iteration order is unspecified, and no theorem below depends on
the order chosen here. -/
def dedupFirst : List (List Char) → List (List Char)
  | [] => []
  | x :: rest => x :: (dedupFirst rest).filter (fun y => ! (y == x))

/-- The `source_context` string built at the top of `fix_build_errors`
(lines 112-120): empty unless `attempt >= 3` and `source_files` is truthy
(non-`None` and non-empty); at most 3 distinct files from the diagnostic
lines, each snippet truncated to 1000 characters. -/
def sourceContext (attempt : Nat) (source_files : Option Files)
    (error_log : String) : String :=
  match source_files with
  | none => ""
  | some sf =>
      if 3 ≤ attempt ∧ sf ≠ [] then
        (dedupFirst ((findDiagFiles error_log.data).take 3)).foldl
          (fun acc ef =>
            match getKey? sf (String.mk ef) with
            | some content =>
                acc ++ "\n=== " ++ String.mk ef ++ " (snippet) ===\n"
                    ++ String.mk (content.data.take 1000) ++ "\n...\n"
            | none => acc)
          ""
      else ""

/-! ### The fix loop `monitor_and_fix_with_claude`

The loop is modelled as a total function over a `Config` (the two
configuration values it reads) and an `Env` of oracles, one per external call
site, indexed by the attempt number at which the call is made (each call site
is reached at most once per attempt, except run-status polling, which also
takes the poll index).  The function returns the final outcome, the final
`current_files` dict, and the chronological list of externally visible
events.  `attempt` is incremented unconditionally at the top of each
iteration of the `while` loop, so the recursion is fuelled by
`max_fix_attempts - attempt`; the fuel-zero branch coincides with the
loop-guard-false result, so the fuelled function is extensionally the
`while` loop. -/

/-- Result of `GitHubAPI.get_run_status`. -/
structure RunStatus where
  status : Option String
  conclusion : Option String
deriving DecidableEq

/-- A parsed advisor fix response (`fixes` in the source).  `confidence`
models the float read by `fixes.get('confidence', 0)` as a rational;
`code_changes` keeps only the file names and the textual payload, which is
all the loop ever reads from it (it is only logged). -/
structure FixResult where
  diagnosis : String
  vcpkg_changes : Option String
  cmake_changes : Option String
  workflow_changes : Option String
  code_changes : List (String × String)
  confidence : ℚ
  requires_code_change : Bool
deriving DecidableEq

/-- The two configuration values the loop reads. -/
structure Config where
  max_fix_attempts : Nat
  github_timeout : Nat
deriving DecidableEq

/-- One externally visible action of the loop, stamped with the attempt
number during which it happened. -/
inductive Event where
  | sleepEv : Nat → Nat → Event
  | discovery : Nat → List Nat → Event
  | statusQuery : Nat → RunStatus → Event
  | timeoutHit : Nat → Event
  | finalCheck : Nat → RunStatus → Event
  | fetchLogs : Nat → String → Event
  | advisorCall : Nat → String → String → Event
  | repoWrite : Nat → String → String → Bool → Event
  | codeChange : Nat → String → Event
  | unknownStatus : Nat → Option String → Event
deriving DecidableEq

/-- The attempt stamp of an event. -/
def Event.att : Event → Nat
  | .sleepEv a _ => a
  | .discovery a _ => a
  | .statusQuery a _ => a
  | .timeoutHit a => a
  | .finalCheck a _ => a
  | .fetchLogs a _ => a
  | .advisorCall a _ _ => a
  | .repoWrite a _ _ _ => a
  | .codeChange a _ => a
  | .unknownStatus a _ => a

/-- The environment of external collaborators: one oracle per call site.
`runs a` is the `get_workflow_runs` result at attempt `a` (as a list of run
ids); `pollStatus a i` the `get_run_status` result at the `i`-th poll of
attempt `a`; `finalStatus a` the post-poll `get_run_status`; `logsAt a` the
`get_run_logs` text; `advise a` the parsed `fix_build_errors` result;
`writeOk a path` the success of `create_or_update_file`. -/
structure Env where
  runs : Nat → List Nat
  pollStatus : Nat → Nat → RunStatus
  finalStatus : Nat → RunStatus
  logsAt : Nat → String
  advise : Nat → FixResult
  writeOk : Nat → String → Bool

structure PollResult where
  events : List Event
  elapsed : Nat
deriving DecidableEq

/-- The inner poll loop (source lines 806-819): check the per-attempt
wall-clock budget, query the run status, stop on `completed`, else sleep 10
seconds.  Elapsed wall-clock time advances 10 per iteration, so the loop
runs at most `timeout / 10 + 2` iterations; the fuel `timeout + 2` strictly
exceeds that, making the fuel-zero branch unreachable from `pollUntilDone`
(it is set to the timeout result so that every branch is a loop exit). -/
def pollGo (env : Env) (a timeout : Nat) : Nat → Nat → Nat → PollResult
  | 0, _, elapsed => ⟨[.timeoutHit a], elapsed⟩
  | fuel + 1, i, elapsed =>
      if timeout < elapsed then ⟨[.timeoutHit a], elapsed⟩
      else
        let st := env.pollStatus a i
        if st.status = some "completed" then ⟨[.statusQuery a st], elapsed⟩
        else
          let r := pollGo env a timeout fuel (i + 1) (elapsed + 10)
          ⟨.statusQuery a st :: .sleepEv a 10 :: r.events, r.elapsed⟩

def pollUntilDone (env : Env) (a timeout : Nat) : PollResult :=
  pollGo env a timeout (timeout + 2) 0 0

/-- State threaded through the three fix applications (lines 871-904). -/
structure ApplyState where
  files : Files
  updated : Bool
  events : List Event
deriving DecidableEq

/-- One `if fixes.get(...):` application step: when the change is truthy, a
repository write to `path` is attempted, and on success the live dict entry
at `updKey` is replaced and `files_updated` is set.  For the first two steps
`updKey = path`; for the workflow step the source writes to
`.github/workflows/build.yml` but updates the dict under `workflow.yml`
(line 903), so `updKey` differs from `path` there. -/
def applyStep (a : Nat) (path updKey : String) (change : Option String)
    (wOk : String → Bool) (st : ApplyState) : ApplyState :=
  if truthy change then
    let c := change.getD ""
    let ok := wOk path
    { files := if ok then setKey st.files updKey c else st.files
      updated := st.updated || ok
      events := st.events ++ [.repoWrite a path c ok] }
  else st

/-- Lines 871-904: apply the vcpkg, CMake and workflow changes in order. -/
def applyFixesE (a : Nat) (fx : FixResult) (files : Files)
    (wOk : String → Bool) : ApplyState :=
  applyStep a ".github/workflows/build.yml" "workflow.yml" fx.workflow_changes wOk
    (applyStep a "CMakeLists.txt" "CMakeLists.txt" fx.cmake_changes wOk
      (applyStep a "vcpkg.json" "vcpkg.json" fx.vcpkg_changes wOk
        ⟨files, false, []⟩))

/-- Terminal outcome of the loop: `success a` on a successful build at
attempt `a`; `exhausted a` whenever the loop stops without success, with `a`
the last attempt that ran (the loop-guard exit, the low-confidence break and
the nothing-updated break all end here). -/
inductive Outcome where
  | success : Nat → Outcome
  | exhausted : Nat → Outcome
deriving DecidableEq

/-- How one loop iteration ends: `halt` leaves the `while` loop, `next`
continues with the (possibly updated) files. -/
inductive IterOut where
  | halt : Outcome → Files → IterOut
  | next : Files → IterOut
deriving DecidableEq

structure IterResult where
  events : List Event
  out : IterOut
deriving DecidableEq

/-- One iteration of the `while` loop (lines 781-922), at attempt `a`
(already incremented).  Chronologically: sleep 15 (grace period), query the
run list; on an empty list sleep 10 and continue (the `continue` statement,
line 795).  Otherwise poll to completion or timeout, re-query the status and
dispatch on its conclusion: success halts; failure or cancellation fetches
logs (empty logs continue, line 853), calls the advisor — passing no source
files, as at line 857 — and either breaks on low confidence at the last
attempts (lines 859-865), or applies the fixes, surfaces code changes in the
log only when `attempt == max_attempts - 1` (lines 906-910), breaks when
nothing was updated at the last attempts (lines 912-915), or sleeps 5 and
continues; any other conclusion logs "Unknown build status" and continues. -/
def loopIter (cfg : Config) (env : Env) (a : Nat) (files : Files) : IterResult :=
  let runs := env.runs a
  if runs.isEmpty then
    ⟨[.sleepEv a 15, .discovery a runs, .sleepEv a 10], .next files⟩
  else
    let pr := pollUntilDone env a cfg.github_timeout
    let st := env.finalStatus a
    let pre := .sleepEv a 15 :: .discovery a runs :: pr.events ++ [.finalCheck a st]
    if st.conclusion = some "success" then
      ⟨pre, .halt (.success a) files⟩
    else if st.conclusion = some "failure" ∨ st.conclusion = some "cancelled" then
      let lg := env.logsAt a
      if lg = "" then
        ⟨pre ++ [.fetchLogs a lg], .next files⟩
      else
        let fx := env.advise a
        let preA := pre ++ [.fetchLogs a lg,
                            .advisorCall a lg (sourceContext a none lg)]
        if fx.confidence < mkRat 3 10 ∧ cfg.max_fix_attempts - 1 ≤ a then
          ⟨preA, .halt (.exhausted a) files⟩
        else
          let app := applyFixesE a fx files (env.writeOk a)
          let evC : List Event :=
            if fx.code_changes ≠ [] ∧ a = cfg.max_fix_attempts - 1 then
              fx.code_changes.map fun pc => .codeChange a pc.1
            else []
          if app.updated = false ∧ cfg.max_fix_attempts - 1 ≤ a then
            ⟨preA ++ app.events ++ evC, .halt (.exhausted a) app.files⟩
          else
            ⟨preA ++ app.events ++ evC ++ [.sleepEv a 5], .next app.files⟩
    else
      ⟨pre ++ [.unknownStatus a st.conclusion], .next files⟩

structure LoopResult where
  outcome : Outcome
  files : Files
  events : List Event
deriving DecidableEq

/-- The fuelled `while` loop.  The fuel-zero result equals the
guard-false result, and `monitor_and_fix` starts with fuel
`max_fix_attempts` and `attempt = 0`, so the guard `attempt < max_attempts`
fails exactly when the fuel runs out. -/
def goLoop (cfg : Config) (env : Env) : Nat → Nat → Files → LoopResult
  | 0, attempt, files => ⟨.exhausted attempt, files, []⟩
  | fuel + 1, attempt, files =>
      if attempt < cfg.max_fix_attempts then
        let it := loopIter cfg env (attempt + 1) files
        match it.out with
        | .halt o f => ⟨o, f, it.events⟩
        | .next f =>
            let r := goLoop cfg env fuel (attempt + 1) f
            ⟨r.outcome, r.files, it.events ++ r.events⟩
      else ⟨.exhausted attempt, files, []⟩

/-- `BuildAutomationGUI.monitor_and_fix_with_claude` on an uncancelled run. -/
def monitor_and_fix (cfg : Config) (env : Env) (files : Files) : LoopResult :=
  goLoop cfg env cfg.max_fix_attempts 0 files

/-- Step 4 of `run_claude_automation` (lines 723-736): publish the generated
`vcpkg.json`, `CMakeLists.txt` and `workflow.yml` contents, building the
initial `current_files` dict.  Note the workflow is published under the
repository path `.github/workflows/build.yml`, and `current_files` records
it under that path. -/
def publish_build_files (build_files : Files) (wOk : String → Bool) : Files :=
  [("vcpkg.json", getKey? build_files "vcpkg.json"),
   ("CMakeLists.txt", getKey? build_files "CMakeLists.txt"),
   (".github/workflows/build.yml", getKey? build_files "workflow.yml")].foldl
    (fun cur p =>
      match p.2 with
      | some c => if c ≠ "" ∧ wOk p.1 = true then setKey cur p.1 c else cur
      | none => cur)
    []

/-! ### Trace observations used by the claims -/

/-- Extract the attempt stamp of a run-discovery query. -/
def discOf : Event → Option Nat
  | .discovery a _ => some a
  | _ => none

/-- Extract the attempt stamp of an advisor call. -/
def advisOf : Event → Option Nat
  | .advisorCall a _ _ => some a
  | _ => none

/-- Extract the attempt stamp of a per-attempt poll timeout. -/
def tmoOf : Event → Option Nat
  | .timeoutHit a => some a
  | _ => none

/-- Extract the attempt stamp of a log fetch. -/
def flogOf : Event → Option Nat
  | .fetchLogs a _ => some a
  | _ => none

/-- The attempt stamps of the run-discovery queries, in order. -/
def discoveryAttempts (evs : List Event) : List Nat := evs.filterMap discOf

/-- The attempt stamps of the advisor calls, in order. -/
def advisorAttempts (evs : List Event) : List Nat := evs.filterMap advisOf

/-- The attempt stamps of the per-attempt poll timeouts, in order. -/
def timeoutAttempts (evs : List Event) : List Nat := evs.filterMap tmoOf

/-- The attempt stamps of the log fetches, in order. -/
def fetchLogAttempts (evs : List Event) : List Nat := evs.filterMap flogOf

/-- Every repository write targets one of the three build files. -/
def isBuildWrite : Event → Bool
  | .repoWrite _ p _ _ =>
      p == "vcpkg.json" || p == "CMakeLists.txt" || p == ".github/workflows/build.yml"
  | _ => true

def buildPathsOnly (evs : List Event) : Bool := evs.all isBuildWrite

/-- Code-change payloads are surfaced only at attempt `m - 1`. -/
def codeSurfacedOnlyAt (m : Nat) : Event → Bool
  | .codeChange a _ => a == m - 1
  | _ => true

def codeChangesOnlyAtLast (m : Nat) (evs : List Event) : Bool :=
  evs.all (codeSurfacedOnlyAt m)

/-- Every advisor call carries an empty source-snippet context. -/
def emptySnippet : Event → Bool
  | .advisorCall _ _ ctx => ctx == ""
  | _ => true

def emptySnippets (evs : List Event) : Bool := evs.all emptySnippet

/-- An event that is not a successful repository write at attempt `a`. -/
def notOkWriteAt (a : Nat) : Event → Bool
  | .repoWrite a' _ _ ok => ! (a' == a && ok)
  | _ => true

/-- No successful repository write is stamped with attempt `a`. -/
def noOkWriteAt (a : Nat) (evs : List Event) : Bool :=
  evs.all (notOkWriteAt a)

/-- An event that is not a run-discovery query beyond attempt `a`. -/
def discLe (a : Nat) : Event → Bool
  | .discovery a' _ => decide (a' ≤ a)
  | _ => true

/-- No run-discovery query is stamped with an attempt beyond `a`. -/
def noDiscoveryAfter (a : Nat) (evs : List Event) : Bool :=
  evs.all (discLe a)

/-- Events the inner poll loop can emit. -/
def isPollEvent : Event → Bool
  | .statusQuery _ _ => true
  | .sleepEv _ _ => true
  | .timeoutHit _ => true
  | _ => false

/-- Events `applyFixesE` can emit: repository writes at the given attempt to
one of the three build-file paths. -/
def isFixWrite (a : Nat) : Event → Bool
  | .repoWrite a' p _ _ =>
      a' == a &&
      (p == "vcpkg.json" || p == "CMakeLists.txt" || p == ".github/workflows/build.yml")
  | _ => false

/-! ### Concrete environments used by scenario theorems and witnesses -/

/-- A run where `get_workflow_runs` always returns the empty list. -/
def envEmptyRuns : Env where
  runs := fun _ => []
  pollStatus := fun _ _ => ⟨none, none⟩
  finalStatus := fun _ => ⟨none, none⟩
  logsAt := fun _ => ""
  advise := fun _ => ⟨"", none, none, none, [], mkRat 0 1, false⟩
  writeOk := fun _ _ => true

/-- A run whose CI run never leaves `in_progress`: every status query reports
an incomplete run with no conclusion. -/
def envStuck : Env where
  runs := fun _ => [0]
  pollStatus := fun _ _ => ⟨some "in_progress", none⟩
  finalStatus := fun _ => ⟨some "in_progress", none⟩
  logsAt := fun _ => ""
  advise := fun _ => ⟨"", none, none, none, [], mkRat 0 1, false⟩
  writeOk := fun _ _ => true

/-- A run where every build fails immediately and the advisor confidently
returns a diagnosis with no file changes at all. -/
def envNoFix : Env where
  runs := fun _ => [0]
  pollStatus := fun _ _ => ⟨some "completed", some "failure"⟩
  finalStatus := fun _ => ⟨some "completed", some "failure"⟩
  logsAt := fun _ => "err"
  advise := fun _ => ⟨"diag", none, none, none, [], mkRat 1 1, false⟩
  writeOk := fun _ _ => true

/-! ### Helper lemmas about the poll loop -/

theorem pollGo_all_pollish (env : Env) (a t : Nat) :
    ∀ fuel i e, ((pollGo env a t fuel i e).events.all isPollEvent) = true := by
  intro fuel
  induction fuel with
  | zero => intro i e; simp [pollGo, isPollEvent]
  | succ fuel ih =>
      intro i e
      simp only [pollGo]
      split_ifs <;> simp [isPollEvent, ih]

theorem pollGo_stamped (env : Env) (a t : Nat) :
    ∀ fuel i e, ((pollGo env a t fuel i e).events.all fun ev => ev.att == a) = true := by
  intro fuel
  induction fuel with
  | zero => intro i e; simp [pollGo, Event.att]
  | succ fuel ih =>
      intro i e
      simp only [pollGo]
      split_ifs
      · simp [Event.att]
      · simp [Event.att]
      · simp only [List.all_cons, Bool.and_eq_true]
        exact ⟨by simp [Event.att], by simp [Event.att], ih (i + 1) (e + 10)⟩

theorem pollGo_elapsed_le (env : Env) (a t : Nat) :
    ∀ fuel i e, e ≤ t + 10 → (pollGo env a t fuel i e).elapsed ≤ t + 10 := by
  intro fuel
  induction fuel with
  | zero => intro i e he; simpa [pollGo] using he
  | succ fuel ih =>
      intro i e he
      simp only [pollGo]
      split_ifs with h1 h2
      · exact he
      · exact he
      · exact ih (i + 1) (e + 10) (by omega)

/-- The per-attempt wall-clock spent polling is at most the configured
timeout plus one poll interval. -/
theorem pollUntilDone_elapsed_le (env : Env) (a t : Nat) :
    (pollUntilDone env a t).elapsed ≤ t + 10 :=
  pollGo_elapsed_le env a t (t + 2) 0 0 (by omega)

theorem all_mono {p q : Event → Bool} (h : ∀ e, p e = true → q e = true) :
    ∀ {l : List Event}, l.all p = true → l.all q = true := by
  intro l hl
  simp only [List.all_eq_true] at *
  exact fun e he => h e (hl e he)

theorem mem_all {p : Event → Bool} {l : List Event} {e : Event}
    (hl : l.all p = true) (he : e ∈ l) : p e = true := by
  simp only [List.all_eq_true] at hl
  exact hl e he

theorem filterMap_nil_of_all {f : Event → Option Nat} {p : Event → Bool}
    (h : ∀ e, p e = true → f e = none) :
    ∀ {l : List Event}, l.all p = true → l.filterMap f = [] := by
  intro l hl
  induction l with
  | nil => rfl
  | cons x xs ih =>
      simp only [List.all_cons, Bool.and_eq_true] at hl
      simp [List.filterMap_cons, h x hl.1, ih hl.2]

/-! ### Helper lemmas about the fix application -/

theorem applyStep_events (a : Nat) (path updKey : String) (ch : Option String)
    (wOk : String → Bool) (st : ApplyState) :
    (applyStep a path updKey ch wOk st).events =
      st.events ++
        (if truthy ch then [Event.repoWrite a path (ch.getD "") (wOk path)] else []) := by
  unfold applyStep
  split_ifs <;> simp

theorem applyStep_updated (a : Nat) (path updKey : String) (ch : Option String)
    (wOk : String → Bool) (st : ApplyState) :
    (applyStep a path updKey ch wOk st).updated =
      (st.updated || (truthy ch && wOk path)) := by
  unfold applyStep
  split_ifs with h <;> simp [h]

theorem applyStep_files (a : Nat) (path updKey : String) (ch : Option String)
    (wOk : String → Bool) (st : ApplyState) :
    (applyStep a path updKey ch wOk st).files =
      if truthy ch && wOk path then setKey st.files updKey (ch.getD "") else st.files := by
  unfold applyStep
  split_ifs with h1 h2 <;> simp_all

theorem applyFixesE_events (a : Nat) (fx : FixResult) (files : Files)
    (w : String → Bool) :
    (applyFixesE a fx files w).events =
      (if truthy fx.vcpkg_changes then
        [Event.repoWrite a "vcpkg.json" (fx.vcpkg_changes.getD "") (w "vcpkg.json")] else []) ++
      (if truthy fx.cmake_changes then
        [Event.repoWrite a "CMakeLists.txt" (fx.cmake_changes.getD "") (w "CMakeLists.txt")] else []) ++
      (if truthy fx.workflow_changes then
        [Event.repoWrite a ".github/workflows/build.yml" (fx.workflow_changes.getD "")
          (w ".github/workflows/build.yml")] else []) := by
  unfold applyFixesE
  rw [applyStep_events, applyStep_events, applyStep_events]
  simp

theorem applyFixesE_updated (a : Nat) (fx : FixResult) (files : Files)
    (w : String → Bool) :
    (applyFixesE a fx files w).updated =
      ((truthy fx.vcpkg_changes && w "vcpkg.json") ||
       (truthy fx.cmake_changes && w "CMakeLists.txt") ||
       (truthy fx.workflow_changes && w ".github/workflows/build.yml")) := by
  unfold applyFixesE
  rw [applyStep_updated, applyStep_updated, applyStep_updated]
  simp [Bool.or_assoc]

/-- If nothing was updated, no write succeeded, so the live dict is
unchanged. -/
theorem applyFixesE_files_of_not_updated (a : Nat) (fx : FixResult)
    (files : Files) (w : String → Bool)
    (h : (applyFixesE a fx files w).updated = false) :
    (applyFixesE a fx files w).files = files := by
  rw [applyFixesE_updated] at h
  simp only [Bool.or_eq_false_iff, Bool.and_eq_false_iff] at h
  unfold applyFixesE
  rw [applyStep_files, applyStep_files, applyStep_files]
  have h1 : (truthy fx.vcpkg_changes && w "vcpkg.json") = false := by
    rcases h.1.1 with h' | h' <;> simp [h']
  have h2 : (truthy fx.cmake_changes && w "CMakeLists.txt") = false := by
    rcases h.1.2 with h' | h' <;> simp [h']
  have h3 : (truthy fx.workflow_changes && w ".github/workflows/build.yml") = false := by
    rcases h.2 with h' | h' <;> simp [h']
  simp [h1, h2, h3]

/-- If something was updated, some repository write succeeded, and its event
is in the application's event list. -/
theorem applyFixesE_mem_ok (a : Nat) (fx : FixResult) (files : Files)
    (w : String → Bool)
    (h : (applyFixesE a fx files w).updated = true) :
    ∃ p c, Event.repoWrite a p c true ∈ (applyFixesE a fx files w).events := by
  rw [applyFixesE_updated] at h
  rw [applyFixesE_events]
  simp only [Bool.or_eq_true, Bool.and_eq_true] at h
  rcases h with (⟨ht, hw⟩ | ⟨ht, hw⟩) | ⟨ht, hw⟩
  · exact ⟨"vcpkg.json", fx.vcpkg_changes.getD "", by simp [ht, hw]⟩
  · exact ⟨"CMakeLists.txt", fx.cmake_changes.getD "", by simp [ht, hw]⟩
  · exact ⟨".github/workflows/build.yml", fx.workflow_changes.getD "", by simp [ht, hw]⟩

theorem applyFixesE_all_fixWrite (a : Nat) (fx : FixResult) (files : Files)
    (w : String → Bool) :
    ((applyFixesE a fx files w).events.all (isFixWrite a)) = true := by
  rw [applyFixesE_events]
  split_ifs <;> simp [isFixWrite]

/-! ### Helper lemmas about one loop iteration -/

theorem discOf_of_pollish (e : Event) (h : isPollEvent e = true) : discOf e = none := by
  cases e <;> simp_all [isPollEvent, discOf]

theorem advisOf_of_pollish (e : Event) (h : isPollEvent e = true) : advisOf e = none := by
  cases e <;> simp_all [isPollEvent, advisOf]

theorem flogOf_of_pollish (e : Event) (h : isPollEvent e = true) : flogOf e = none := by
  cases e <;> simp_all [isPollEvent, flogOf]

theorem discOf_of_fixWrite (a : Nat) (e : Event) (h : isFixWrite a e = true) :
    discOf e = none := by
  cases e <;> simp_all [isFixWrite, discOf]

theorem advisOf_of_fixWrite (a : Nat) (e : Event) (h : isFixWrite a e = true) :
    advisOf e = none := by
  cases e <;> simp_all [isFixWrite, advisOf]

theorem tmoOf_of_fixWrite (a : Nat) (e : Event) (h : isFixWrite a e = true) :
    tmoOf e = none := by
  cases e <;> simp_all [isFixWrite, tmoOf]

theorem discoveryAttempts_pollGo (env : Env) (a t fuel i e : Nat) :
    discoveryAttempts (pollGo env a t fuel i e).events = [] :=
  filterMap_nil_of_all discOf_of_pollish (pollGo_all_pollish env a t fuel i e)

theorem advisorAttempts_pollGo (env : Env) (a t fuel i e : Nat) :
    advisorAttempts (pollGo env a t fuel i e).events = [] :=
  filterMap_nil_of_all advisOf_of_pollish (pollGo_all_pollish env a t fuel i e)

theorem fetchLogAttempts_pollGo (env : Env) (a t fuel i e : Nat) :
    fetchLogAttempts (pollGo env a t fuel i e).events = [] :=
  filterMap_nil_of_all flogOf_of_pollish (pollGo_all_pollish env a t fuel i e)

theorem discoveryAttempts_applyFixesE (a : Nat) (fx : FixResult) (files : Files)
    (w : String → Bool) :
    discoveryAttempts (applyFixesE a fx files w).events = [] :=
  filterMap_nil_of_all (discOf_of_fixWrite a) (applyFixesE_all_fixWrite a fx files w)

theorem advisorAttempts_applyFixesE (a : Nat) (fx : FixResult) (files : Files)
    (w : String → Bool) :
    advisorAttempts (applyFixesE a fx files w).events = [] :=
  filterMap_nil_of_all (advisOf_of_fixWrite a) (applyFixesE_all_fixWrite a fx files w)

theorem discoveryAttempts_codeEvents (a : Nat) (l : List (String × String)) :
    discoveryAttempts (l.map fun pc => Event.codeChange a pc.1) = [] := by
  induction l with
  | nil => rfl
  | cons x xs ih => simp only [List.map_cons, discoveryAttempts, List.filterMap_cons, discOf] at ih ⊢; exact ih

theorem advisorAttempts_codeEvents (a : Nat) (l : List (String × String)) :
    advisorAttempts (l.map fun pc => Event.codeChange a pc.1) = [] := by
  induction l with
  | nil => rfl
  | cons x xs ih => simp only [List.map_cons, advisorAttempts, List.filterMap_cons, advisOf] at ih ⊢; exact ih

/-- Each loop iteration queries the run list exactly once, at its own
attempt number. -/
theorem loopIter_disc (cfg : Config) (env : Env) (a : Nat) (f : Files) :
    discoveryAttempts (loopIter cfg env a f).events = [a] := by
  have hpoll := discoveryAttempts_pollGo env a cfg.github_timeout
    (cfg.github_timeout + 2) 0 0
  unfold loopIter pollUntilDone
  simp only [discoveryAttempts] at hpoll ⊢
  split_ifs <;>
    simp_all [discoveryAttempts, discOf, discoveryAttempts_codeEvents] <;>
    exact fun e he =>
      discOf_of_fixWrite _ e (mem_all (applyFixesE_all_fixWrite _ _ _ _) he)

/-- Events the poll loop at attempt `a` can emit: status queries at `a`,
10-second sleeps at `a`, and the timeout marker at `a`. -/
def isPollEventAt (a : Nat) : Event → Bool
  | .statusQuery a' _ => a' == a
  | .sleepEv a' n => a' == a && n == 10
  | .timeoutHit a' => a' == a
  | _ => false

theorem pollGo_allAt (env : Env) (a t : Nat) :
    ∀ fuel i e, ((pollGo env a t fuel i e).events.all (isPollEventAt a)) = true := by
  intro fuel
  induction fuel with
  | zero => intro i e; simp [pollGo, isPollEventAt]
  | succ fuel ih =>
      intro i e
      simp only [pollGo]
      split_ifs
      · simp [isPollEventAt]
      · simp [isPollEventAt]
      · simp only [List.all_cons, Bool.and_eq_true]
        exact ⟨by simp [isPollEventAt], by simp [isPollEventAt], ih (i + 1) (e + 10)⟩

/-- Master classification of one iteration's events: a predicate closed
under each kind of event the iteration can emit holds of all its events. -/
theorem loopIter_all (cfg : Config) (env : Env) (a : Nat) (f : Files)
    {p : Event → Bool}
    (h1 : ∀ n, p (.sleepEv a n) = true)
    (h2 : ∀ r, p (.discovery a r) = true)
    (h3 : ∀ e, isPollEventAt a e = true → p e = true)
    (h4 : ∀ st, p (.finalCheck a st) = true)
    (h5 : ∀ lg, p (.fetchLogs a lg) = true)
    (h6 : ∀ lg, p (.advisorCall a lg (sourceContext a none lg)) = true)
    (h7 : ∀ e, isFixWrite a e = true → p e = true)
    (h8 : ∀ fn, a = cfg.max_fix_attempts - 1 → p (.codeChange a fn) = true)
    (h9 : ∀ c, p (.unknownStatus a c) = true) :
    ((loopIter cfg env a f).events.all p) = true := by
  have hpoll := all_mono h3
    (pollGo_allAt env a cfg.github_timeout (cfg.github_timeout + 2) 0 0)
  have happ : ∀ fx w, ((applyFixesE a fx f w).events.all p) = true :=
    fun fx w => all_mono h7 (applyFixesE_all_fixWrite a fx f w)
  unfold loopIter pollUntilDone
  dsimp only
  split_ifs <;> simp only [List.all_append, List.all_cons, Bool.and_eq_true]
  all_goals repeat' apply And.intro
  all_goals
    first
      | exact h1 _
      | exact h2 _
      | exact h4 _
      | exact h5 _
      | exact h6 _
      | exact h9 _
      | exact hpoll
      | exact happ _ _
      | exact List.all_nil
      | (rw [List.all_eq_true]
         rintro e he
         rw [List.mem_map] at he
         obtain ⟨pc, hpc, rfl⟩ := he
         exact h8 _ (by omega))

theorem loopIter_stamped (cfg : Config) (env : Env) (a : Nat) (f : Files) :
    ((loopIter cfg env a f).events.all fun e => e.att == a) = true := by
  refine loopIter_all cfg env a f ?_ ?_ ?_ ?_ ?_ ?_ ?_ ?_ ?_ <;>
    intro x
  · simp [Event.att]
  · simp [Event.att]
  · intro hx; cases x <;> simp_all [isPollEventAt, Event.att]
  · simp [Event.att]
  · simp [Event.att]
  · simp [Event.att]
  · intro hx; cases x <;> simp_all [isFixWrite, Event.att]
  · intro hx; simp [Event.att]
  · simp [Event.att]

theorem loopIter_buildPaths (cfg : Config) (env : Env) (a : Nat) (f : Files) :
    buildPathsOnly (loopIter cfg env a f).events = true := by
  refine loopIter_all cfg env a f ?_ ?_ ?_ ?_ ?_ ?_ ?_ ?_ ?_ <;>
    intro x
  · simp [isBuildWrite]
  · simp [isBuildWrite]
  · intro hx; cases x <;> simp_all [isPollEventAt, isBuildWrite]
  · simp [isBuildWrite]
  · simp [isBuildWrite]
  · simp [isBuildWrite]
  · intro hx; cases x <;> simp_all [isFixWrite, isBuildWrite]
  · intro hx; simp [isBuildWrite]
  · simp [isBuildWrite]

theorem loopIter_codeOnly (cfg : Config) (env : Env) (a : Nat) (f : Files) :
    codeChangesOnlyAtLast cfg.max_fix_attempts (loopIter cfg env a f).events = true := by
  refine loopIter_all cfg env a f ?_ ?_ ?_ ?_ ?_ ?_ ?_ ?_ ?_ <;>
    intro x
  · simp [codeSurfacedOnlyAt]
  · simp [codeSurfacedOnlyAt]
  · intro hx; cases x <;> simp_all [isPollEventAt, codeSurfacedOnlyAt]
  · simp [codeSurfacedOnlyAt]
  · simp [codeSurfacedOnlyAt]
  · simp [codeSurfacedOnlyAt]
  · intro hx; cases x <;> simp_all [isFixWrite, codeSurfacedOnlyAt]
  · intro hx; simp [codeSurfacedOnlyAt, hx]
  · simp [codeSurfacedOnlyAt]

theorem loopIter_emptySnippets (cfg : Config) (env : Env) (a : Nat) (f : Files) :
    emptySnippets (loopIter cfg env a f).events = true := by
  refine loopIter_all cfg env a f ?_ ?_ ?_ ?_ ?_ ?_ ?_ ?_ ?_ <;>
    intro x
  · simp [emptySnippet]
  · simp [emptySnippet]
  · intro hx; cases x <;> simp_all [isPollEventAt, emptySnippet]
  · simp [emptySnippet]
  · simp [emptySnippet]
  · simp [emptySnippet, sourceContext]
  · intro hx; cases x <;> simp_all [isFixWrite, emptySnippet]
  · intro hx; simp [emptySnippet]
  · simp [emptySnippet]

/-! ### Helper lemmas about the whole loop -/

theorem goLoop_all (cfg : Config) (env : Env) {p : Event → Bool}
    (hIter : ∀ a f, ((loopIter cfg env a f).events.all p) = true) :
    ∀ fuel attempt f, ((goLoop cfg env fuel attempt f).events.all p) = true := by
  intro fuel
  induction fuel with
  | zero => intro attempt f; simp [goLoop]
  | succ fuel ih =>
      intro attempt f
      simp only [goLoop]
      split_ifs with h
      · cases hout : (loopIter cfg env (attempt + 1) f).out with
        | halt o f' => simp only [hout]; exact hIter _ _
        | next f' =>
            simp only [hout, List.all_append, Bool.and_eq_true]
            exact ⟨hIter _ _, ih _ _⟩
      · simp

/-- Every event of the loop is stamped with an attempt past the counter
value at entry. -/
theorem goLoop_stamps (cfg : Config) (env : Env) :
    ∀ fuel attempt f e, e ∈ (goLoop cfg env fuel attempt f).events →
      attempt + 1 ≤ e.att := by
  intro fuel
  induction fuel with
  | zero => intro attempt f e he; simp [goLoop] at he
  | succ fuel ih =>
      intro attempt f e he
      simp only [goLoop] at he
      split_ifs at he with h
      · cases hout : (loopIter cfg env (attempt + 1) f).out with
        | halt o f' =>
            rw [hout] at he
            simp only at he
            have := mem_all (loopIter_stamped cfg env (attempt + 1) f) he
            simp only [beq_iff_eq] at this
            omega
        | next f' =>
            rw [hout] at he
            simp only [List.mem_append] at he
            rcases he with he | he
            · have := mem_all (loopIter_stamped cfg env (attempt + 1) f) he
              simp only [beq_iff_eq] at this
              omega
            · have := ih (attempt + 1) f' e he
              omega
      · simp at he

theorem discoveryAttempts_append (l1 l2 : List Event) :
    discoveryAttempts (l1 ++ l2) = discoveryAttempts l1 ++ discoveryAttempts l2 := by
  simp [discoveryAttempts]

/-- The attempts at which the loop queries the run list form the contiguous
range `attempt+1, ..., attempt+k` for some `k ≤ fuel`: one query per
iteration, each iteration advancing the counter by exactly 1. -/
theorem goLoop_disc (cfg : Config) (env : Env) :
    ∀ fuel attempt f, ∃ k, k ≤ fuel ∧
      discoveryAttempts (goLoop cfg env fuel attempt f).events =
        List.range' (attempt + 1) k := by
  intro fuel
  induction fuel with
  | zero =>
      intro attempt f
      exact ⟨0, le_refl 0, by simp [goLoop, discoveryAttempts]⟩
  | succ fuel ih =>
      intro attempt f
      simp only [goLoop]
      split_ifs with h
      · cases hout : (loopIter cfg env (attempt + 1) f).out with
        | halt o f' =>
            refine ⟨1, by omega, ?_⟩
            simp only [hout]
            simpa [List.range'] using loopIter_disc cfg env (attempt + 1) f
        | next f' =>
            obtain ⟨k, hk, hd⟩ := ih (attempt + 1) f'
            refine ⟨k + 1, by omega, ?_⟩
            simp only [hout]
            rw [discoveryAttempts_append, loopIter_disc, hd]
            simp [List.range']
      · exact ⟨0, by omega, by simp [discoveryAttempts]⟩

/-! ### A run whose CI never completes (claim C5) -/

theorem timeoutAttempts_pollGo_stuck (env : Env) (a t : Nat)
    (hpoll : ∀ i, (env.pollStatus a i).status ≠ some "completed") :
    ∀ fuel i e, timeoutAttempts (pollGo env a t fuel i e).events = [a] := by
  intro fuel
  induction fuel with
  | zero => intro i e; simp [pollGo, timeoutAttempts, tmoOf]
  | succ fuel ih =>
      intro i e
      simp only [pollGo]
      split_ifs with h1 h2
      · simp [timeoutAttempts, tmoOf]
      · exact absurd h2 (hpoll i)
      · simpa [timeoutAttempts, tmoOf] using ih (i + 1) (e + 10)

/-- With a non-empty run list, a run that never completes and a final status
whose conclusion is neither success nor failure nor cancellation, an
iteration times out, takes the unknown-status branch and continues,
fetching no logs and calling no advisor. -/
theorem loopIter_stuck (cfg : Config) (env : Env) (a : Nat) (f : Files)
    (hruns : (env.runs a).isEmpty = false)
    (hpoll : ∀ i, (env.pollStatus a i).status ≠ some "completed")
    (hfin1 : (env.finalStatus a).conclusion ≠ some "success")
    (hfin2 : (env.finalStatus a).conclusion ≠ some "failure")
    (hfin3 : (env.finalStatus a).conclusion ≠ some "cancelled") :
    (loopIter cfg env a f).out = .next f ∧
    timeoutAttempts (loopIter cfg env a f).events = [a] ∧
    advisorAttempts (loopIter cfg env a f).events = [] ∧
    fetchLogAttempts (loopIter cfg env a f).events = [] := by
  have htmo := timeoutAttempts_pollGo_stuck env a cfg.github_timeout hpoll
    (cfg.github_timeout + 2) 0 0
  have hadv := advisorAttempts_pollGo env a cfg.github_timeout
    (cfg.github_timeout + 2) 0 0
  have hflog := fetchLogAttempts_pollGo env a cfg.github_timeout
    (cfg.github_timeout + 2) 0 0
  unfold loopIter pollUntilDone
  dsimp only
  rw [if_neg (by simp [hruns]), if_neg hfin1,
      if_neg (by rintro (h | h) <;> simp_all)]
  refine ⟨rfl, ?_, ?_, ?_⟩ <;>
    simp_all [timeoutAttempts, advisorAttempts, fetchLogAttempts, tmoOf,
      advisOf, flogOf]

/-- A whole run against such an environment consumes the entire attempt
budget, one timeout per attempt, never fetches logs, never calls the
advisor, never changes the files, and ends exhausted. -/
theorem goLoop_stuck (cfg : Config) (env : Env)
    (hruns : ∀ a, (env.runs a).isEmpty = false)
    (hpoll : ∀ a i, (env.pollStatus a i).status ≠ some "completed")
    (hfin1 : ∀ a, (env.finalStatus a).conclusion ≠ some "success")
    (hfin2 : ∀ a, (env.finalStatus a).conclusion ≠ some "failure")
    (hfin3 : ∀ a, (env.finalStatus a).conclusion ≠ some "cancelled") :
    ∀ fuel attempt f, attempt + fuel = cfg.max_fix_attempts →
      (goLoop cfg env fuel attempt f).outcome = .exhausted cfg.max_fix_attempts ∧
      (goLoop cfg env fuel attempt f).files = f ∧
      timeoutAttempts (goLoop cfg env fuel attempt f).events =
        List.range' (attempt + 1) fuel ∧
      advisorAttempts (goLoop cfg env fuel attempt f).events = [] ∧
      fetchLogAttempts (goLoop cfg env fuel attempt f).events = [] := by
  intro fuel
  induction fuel with
  | zero =>
      intro attempt f hinv
      have h : attempt = cfg.max_fix_attempts := by omega
      refine ⟨?_, rfl, ?_, ?_, ?_⟩
      · simp [goLoop, h]
      · simp [goLoop, timeoutAttempts]
      · simp [goLoop, advisorAttempts]
      · simp [goLoop, fetchLogAttempts]
  | succ fuel ih =>
      intro attempt f hinv
      obtain ⟨ho, ht, ha, hl⟩ :=
        loopIter_stuck cfg env (attempt + 1) f (hruns _) (hpoll _)
          (hfin1 _) (hfin2 _) (hfin3 _)
      obtain ⟨io, if_, it, ia, il⟩ := ih (attempt + 1) f (by omega)
      have hguard : attempt < cfg.max_fix_attempts := by omega
      simp only [goLoop, if_pos hguard, ho]
      refine ⟨io, if_, ?_, ?_, ?_⟩ <;>
        simp_all [timeoutAttempts, advisorAttempts, fetchLogAttempts,
          List.range']


/-! ### The early-exit argument (claim C7) -/

theorem mem_advisorAttempts {a : Nat} {lg ctx : String} {evs : List Event}
    (h : Event.advisorCall a lg ctx ∈ evs) : a ∈ advisorAttempts evs :=
  List.mem_filterMap.mpr ⟨_, h, rfl⟩

/-- If the advisor was consulted at attempt `a` within an iteration whose
events contain no successful write at `a`, and `a` is at or past
`max_fix_attempts - 1`, the iteration halts the loop with the exhausted
outcome and unchanged files. -/
theorem loopIter_c7 (cfg : Config) (env : Env) (a b : Nat) (f : Files)
    (lg ctx : String)
    (hmax : cfg.max_fix_attempts - 1 ≤ a)
    (hw : noOkWriteAt a (loopIter cfg env b f).events = true)
    (hm : Event.advisorCall a lg ctx ∈ (loopIter cfg env b f).events) :
    a = b ∧ (loopIter cfg env b f).out = .halt (.exhausted b) f := by
  have hab : a = b := by
    have := mem_all (loopIter_stamped cfg env b f) hm
    simpa [Event.att] using this
  subst hab
  refine ⟨rfl, ?_⟩
  have hadv := mem_advisorAttempts hm
  clear hm
  unfold loopIter pollUntilDone at hw hadv ⊢
  dsimp only at hw hadv ⊢
  split_ifs at hw hadv ⊢
  all_goals
    first
      | rfl
      | (exfalso
         revert hadv
         have hp := advisorAttempts_pollGo env a cfg.github_timeout
           (cfg.github_timeout + 2) 0 0
         simp only [advisorAttempts] at hp ⊢
         simp [advisOf, hp]
         done)
      | (obtain ⟨hupd, -⟩ :
           (applyFixesE a (env.advise a) f (env.writeOk a)).updated = false ∧
             cfg.max_fix_attempts - 1 ≤ a := by assumption
         simp [applyFixesE_files_of_not_updated _ _ _ _ hupd])
      | (exfalso
         have hnand :
             ¬((applyFixesE a (env.advise a) f (env.writeOk a)).updated = false ∧
               cfg.max_fix_attempts - 1 ≤ a) := by assumption
         have hupd : (applyFixesE a (env.advise a) f (env.writeOk a)).updated = true := by
           rcases Bool.eq_false_or_eq_true
             (applyFixesE a (env.advise a) f (env.writeOk a)).updated with h | h
           · exact h
           · exact absurd ⟨h, hmax⟩ hnand
         obtain ⟨p, c, hmem⟩ :=
           applyFixesE_mem_ok a (env.advise a) f (env.writeOk a) hupd
         have hbad : notOkWriteAt a (Event.repoWrite a p c true) = true :=
           mem_all (p := notOkWriteAt a) hw (by
             simp only [List.mem_cons, List.mem_append]
             simp [hmem])
         simp [notOkWriteAt] at hbad)

theorem discLe_of_stamped (x b : Nat) (hba : b ≤ x) (e : Event)
    (h : (e.att == b) = true) : discLe x e = true := by
  cases e <;> simp_all [Event.att, discLe]

/-- If the advisor is consulted at attempt `a ≥ max_fix_attempts - 1` during
a run in which no repository write at attempt `a` succeeds, the loop ends
exhausted at attempt `a` and never queries the run list at a later
attempt. -/
theorem goLoop_c7 (cfg : Config) (env : Env) :
    ∀ fuel attempt f a lg ctx,
      cfg.max_fix_attempts - 1 ≤ a →
      noOkWriteAt a (goLoop cfg env fuel attempt f).events = true →
      Event.advisorCall a lg ctx ∈ (goLoop cfg env fuel attempt f).events →
      (goLoop cfg env fuel attempt f).outcome = .exhausted a ∧
      noDiscoveryAfter a (goLoop cfg env fuel attempt f).events = true := by
  intro fuel
  induction fuel with
  | zero => intro attempt f a lg ctx hmax hw hm; simp [goLoop] at hm
  | succ fuel ih =>
      intro attempt f a lg ctx hmax hw hm
      simp only [goLoop] at hw hm ⊢
      split_ifs at hw hm ⊢ with h
      · cases hout : (loopIter cfg env (attempt + 1) f).out with
        | halt o f' =>
            rw [hout] at hw hm
            dsimp only at hw hm ⊢
            obtain ⟨hab, hhalt⟩ :=
              loopIter_c7 cfg env a (attempt + 1) f lg ctx hmax hw hm
            rw [hout] at hhalt
            obtain ⟨rfl, rfl⟩ : o = Outcome.exhausted (attempt + 1) ∧ f' = f := by
              cases hhalt
              exact ⟨rfl, rfl⟩
            refine ⟨by simp [hab], ?_⟩
            exact all_mono
              (fun e he => discLe_of_stamped a (attempt + 1) (by omega) e he)
              (loopIter_stamped cfg env (attempt + 1) _)
        | next f' =>
            rw [hout] at hw hm
            dsimp only at hw hm ⊢
            simp only [noOkWriteAt, List.all_append, Bool.and_eq_true] at hw
            rcases List.mem_append.mp hm with hmi | hmr
            · obtain ⟨hab, hhalt⟩ :=
                loopIter_c7 cfg env a (attempt + 1) f lg ctx hmax hw.1 hmi
              rw [hout] at hhalt
              cases hhalt
            · have hstamp : attempt + 1 + 1 ≤ a := by
                have := goLoop_stamps cfg env fuel (attempt + 1) f'
                  (Event.advisorCall a lg ctx) hmr
                simpa [Event.att] using this
              obtain ⟨ho, hnd⟩ := ih (attempt + 1) f' a lg ctx hmax hw.2 hmr
              refine ⟨ho, ?_⟩
              simp only [noDiscoveryAfter, List.all_append, Bool.and_eq_true]
              refine ⟨?_, hnd⟩
              exact all_mono
                (fun e he => discLe_of_stamped a (attempt + 1) (by omega) e he)
                (loopIter_stamped cfg env (attempt + 1) f)
      · simp at hm

/-! ### Extraction round-trip (claim C9) -/

theorem isPrefixOf_of_append {p s l : List Char}
    (h : (p ++ s).isPrefixOf l = true) : p.isPrefixOf l = true := by
  induction p generalizing l with
  | nil => simp [List.isPrefixOf]
  | cons a p' ih =>
      cases l with
      | nil => simp [List.isPrefixOf] at h
      | cons b l' =>
          simp only [List.cons_append, List.isPrefixOf, Bool.and_eq_true] at h ⊢
          exact ⟨h.1, ih h.2⟩

theorem listContains_append_right {p s : List Char} :
    ∀ {l}, listContains p l = false → listContains (p ++ s) l = false := by
  intro l
  induction l with
  | nil =>
      intro h
      cases p with
      | nil => simp [listContains] at h
      | cons a p' => simp [listContains]
  | cons c rest ih =>
      intro h
      simp only [listContains, Bool.or_eq_false_iff] at h ⊢
      refine ⟨?_, ih h.2⟩
      cases hp : (p ++ s).isPrefixOf (c :: rest) with
      | false => rfl
      | true => exact absurd (isPrefixOf_of_append hp) (by simp [h.1])

theorem splitFirst_eq_none {pat : List Char} :
    ∀ {l}, listContains pat l = false → splitFirst pat l = none := by
  intro l
  induction l with
  | nil => intro _; rfl
  | cons c rest ih =>
      intro h
      simp only [listContains, Bool.or_eq_false_iff] at h
      simp [splitFirst, h.1, ih h.2]

theorem isPrefixOf_append_self (p r : List Char) : p.isPrefixOf (p ++ r) = true := by
  induction p with
  | nil => simp [List.isPrefixOf]
  | cons a p' ih => simp [List.isPrefixOf, ih]

theorem splitFirst_self (pat r : List Char) (h : pat ≠ []) :
    splitFirst pat (pat ++ r) = some ([], r) := by
  cases pat with
  | nil => exact absurd rfl h
  | cons a p' =>
      simp only [List.cons_append, splitFirst]
      rw [if_pos]
      · simp
      · exact isPrefixOf_append_self (a :: p') r

/-- The first fence in `p ++ '\n' :: ticks` is the final one when `p`
contains no fence: an occurrence inside `p` is excluded by hypothesis, and
one straddling `p`'s end would have to contain the newline. -/
theorem splitFirst_ticks_append :
    ∀ {p : List Char}, listContains ticks p = false →
      splitFirst ticks (p ++ '\n' :: ticks) = some (p ++ ['\n'], []) := by
  intro p
  induction p with
  | nil => intro _; rfl
  | cons c p' ih =>
      intro h
      simp only [listContains, Bool.or_eq_false_iff] at h
      have hnp : ticks.isPrefixOf (c :: (p' ++ '\n' :: ticks)) = false := by
        cases p' with
        | nil => simp [ticks, List.isPrefixOf]
        | cons d p'' =>
            cases p'' with
            | nil => simp [ticks, List.isPrefixOf]
            | cons e p''' =>
                simpa [ticks, List.isPrefixOf] using h.1
      simp [splitFirst, hnp, ih h.2]

theorem rtrim_payload (q : List Char) :
    rtrimSpace (('\x7b' :: q ++ ['\x7d']) ++ ['\n']) = '\x7b' :: q ++ ['\x7d'] := by
  have h1 : isPySpace '\n' = true := by decide
  have h2 : isPySpace '\x7d' = false := by decide
  unfold rtrimSpace
  simp [List.dropWhile, h1, h2]

theorem pattern1_wrapped (q : List Char)
    (h : listContains ticks ('\x7b' :: q ++ ['\x7d']) = false) :
    pattern1 (ticksJson ++ ('\n' :: (('\x7b' :: q ++ ['\x7d']) ++ '\n' :: ticks)))
      = some ('\x7b' :: q ++ ['\x7d']) := by
  unfold pattern1
  rw [splitFirst_self ticksJson _ (by decide)]
  have hdw : (('\n' : Char) :: (('\x7b' :: q ++ ['\x7d']) ++ '\n' :: ticks)).dropWhile isPySpace
      = ('\x7b' :: q ++ ['\x7d']) ++ '\n' :: ticks := by
    have h1 : isPySpace '\n' = true := by decide
    have h2 : isPySpace '\x7b' = false := by decide
    simp [List.dropWhile, h1, h2]
  dsimp only
  rw [hdw, splitFirst_ticks_append h]
  dsimp only
  rw [rtrim_payload]

theorem pattern1_none {l : List Char} (h : listContains ticksJson l = false) :
    pattern1 l = none := by
  unfold pattern1
  rw [splitFirst_eq_none h]

theorem pattern2_none {l : List Char} (h : listContains ticks l = false) :
    pattern2 l = none := by
  unfold pattern2
  rw [splitFirst_eq_none h]

theorem pattern3_payload (q : List Char) :
    pattern3 ('\x7b' :: q ++ ['\x7d']) = some ('\x7b' :: q ++ ['\x7d']) := by
  unfold pattern3
  have h1 : ('\x7b' :: q ++ ['\x7d']).findIdx? (fun c => c == '\x7b') = some 0 := by
    simp [List.findIdx?]
  have h2 : ('\x7b' :: q ++ ['\x7d']).reverse.findIdx? (fun c => c == '\x7d') = some 0 := by
    simp [List.findIdx?]
  rw [h1, h2]
  dsimp only
  rw [if_pos (by simp)]
  simp only [List.drop_zero]
  congr 1
  apply List.take_of_length_le
  simp

theorem extract_wrapped (q : List Char)
    (h : listContains ticks ('\x7b' :: q ++ ['\x7d']) = false) :
    extract_json_list (ticksJson ++ ('\n' :: (('\x7b' :: q ++ ['\x7d']) ++ '\n' :: ticks)))
      = '\x7b' :: q ++ ['\x7d'] := by
  unfold extract_json_list
  rw [pattern1_wrapped q h]

theorem extract_raw (q : List Char)
    (h : listContains ticks ('\x7b' :: q ++ ['\x7d']) = false) :
    extract_json_list ('\x7b' :: q ++ ['\x7d']) = '\x7b' :: q ++ ['\x7d'] := by
  unfold extract_json_list
  rw [pattern1_none
        (show listContains ticksJson ('\x7b' :: q ++ ['\x7d']) = false from
          listContains_append_right h),
      pattern2_none h, pattern3_payload]

/-! ### The fallback dependency heuristic (claim C8) -/

theorem addDep_mem (deps : List String) (x d : String) :
    d ∈ addDep deps x ↔ d ∈ deps ∨ d = x := by
  unfold addDep
  split_ifs with h
  · constructor
    · exact fun hd => Or.inl hd
    · rintro (hd | rfl)
      · exact hd
      · exact h
  · simp

theorem scanFile_deps_mem (acc : List String × List String) (fc : String × String)
    (d : String) :
    d ∈ (scanFile acc fc).1 ↔
      d ∈ acc.1 ∨
      (d = "boost" ∧ strContains "#include <boost" fc.2 = true) ∨
      (d = "openssl" ∧ strContains "#include <openssl" fc.2 = true) ∨
      (d = "curl" ∧ strContains "#include <curl" fc.2 = true) ∨
      (d = "nlohmann-json" ∧ strContains "nlohmann/json" fc.2 = true) := by
  unfold scanFile
  dsimp only
  split_ifs <;> simp_all [addDep_mem] <;> tauto

theorem scan_deps_mem :
    ∀ (files : List (String × String)) (acc : List String × List String) (d : String),
      d ∈ (files.foldl scanFile acc).1 ↔
        d ∈ acc.1 ∨
        (d = "boost" ∧ ∃ fc ∈ files, strContains "#include <boost" fc.2 = true) ∨
        (d = "openssl" ∧ ∃ fc ∈ files, strContains "#include <openssl" fc.2 = true) ∨
        (d = "curl" ∧ ∃ fc ∈ files, strContains "#include <curl" fc.2 = true) ∨
        (d = "nlohmann-json" ∧ ∃ fc ∈ files, strContains "nlohmann/json" fc.2 = true) := by
  intro files
  induction files with
  | nil => intro acc d; simp
  | cons fc files ih =>
      intro acc d
      rw [List.foldl_cons, ih, scanFile_deps_mem]
      simp only [List.exists_mem_cons_iff]
      generalize (d ∈ acc.1) = A
      generalize (d = "boost") = B1
      generalize (strContains "#include <boost" fc.2 = true) = B2
      generalize (∃ x ∈ files, strContains "#include <boost" x.2 = true) = B3
      generalize (d = "openssl") = O1
      generalize (strContains "#include <openssl" fc.2 = true) = O2
      generalize (∃ x ∈ files, strContains "#include <openssl" x.2 = true) = O3
      generalize (d = "curl") = C1
      generalize (strContains "#include <curl" fc.2 = true) = C2
      generalize (∃ x ∈ files, strContains "#include <curl" x.2 = true) = C3
      generalize (d = "nlohmann-json") = N1
      generalize (strContains "nlohmann/json" fc.2 = true) = N2
      generalize (∃ x ∈ files, strContains "nlohmann/json" x.2 = true) = N3
      tauto

/-! ### The claims -/

/-- Claim C1 (code bug).  After the initial publish, `current_files` holds
the workflow under `.github/workflows/build.yml` (lines 725-734).  When a
fix round carries replacement workflow content and the repository write
succeeds, the write goes to `.github/workflows/build.yml` but the live dict
is updated under the key `workflow.yml` (line 903): the old workflow entry
stays live, byte-identical, alongside a new entry, instead of being
replaced.  This contradicts the claimed frame effect for the workflow file;
the vcpkg and CMake entries are replaced at their own keys. -/
theorem C1_workflow_key_mismatch :
    publish_build_files
        [("vcpkg.json", "V"), ("CMakeLists.txt", "C"), ("workflow.yml", "W")]
        (fun _ => true)
      = [("vcpkg.json", "V"), ("CMakeLists.txt", "C"),
         (".github/workflows/build.yml", "W")] ∧
    getKey? (applyFixesE 1
        ⟨"bad runner", none, none, some "W2", [], mkRat 9 10, false⟩
        [("vcpkg.json", "V"), ("CMakeLists.txt", "C"),
         (".github/workflows/build.yml", "W")]
        (fun _ => true)).files ".github/workflows/build.yml" = some "W" ∧
    getKey? (applyFixesE 1
        ⟨"bad runner", none, none, some "W2", [], mkRat 9 10, false⟩
        [("vcpkg.json", "V"), ("CMakeLists.txt", "C"),
         (".github/workflows/build.yml", "W")]
        (fun _ => true)).files "workflow.yml" = some "W2" ∧
    Event.repoWrite 1 ".github/workflows/build.yml" "W2" true ∈
      (applyFixesE 1
        ⟨"bad runner", none, none, some "W2", [], mkRat 9 10, false⟩
        [("vcpkg.json", "V"), ("CMakeLists.txt", "C"),
         (".github/workflows/build.yml", "W")]
        (fun _ => true)).events := by
  decide

/-- Claim C2 (confirmed).  For every configuration and environment, every
repository write the fix loop performs targets one of the three build files
(`vcpkg.json`, `CMakeLists.txt`, `.github/workflows/build.yml`) — so no
source file is ever written, whatever the advisor's `code_changes` payload
contains — and a code-change payload is surfaced (logged) only when the
attempt equals `max_fix_attempts - 1` (lines 906-910). -/
theorem C2_no_code_application (cfg : Config) (env : Env) (f0 : Files) :
    buildPathsOnly (monitor_and_fix cfg env f0).events = true ∧
    codeChangesOnlyAtLast cfg.max_fix_attempts (monitor_and_fix cfg env f0).events = true := by
  unfold monitor_and_fix
  exact ⟨goLoop_all cfg env (loopIter_buildPaths cfg env) _ _ _,
         goLoop_all cfg env (loopIter_codeOnly cfg env) _ _ _⟩

/-- Claim C3 (code bug).  The snippet machinery inside `fix_build_errors`
(lines 112-120) would, from attempt 3 on, include snippets of the source
files named in compiler-style diagnostics — third conjunct — and includes
none on attempts 1 and 2 — second and fourth conjuncts.  But the loop's
only call site (line 857) passes no `source_files` argument at all, so the
context sent to the advisor is empty on every attempt of every run — first
conjunct.  The claimed behaviour for attempt ≥ 3 never happens. -/
theorem C3_snippets_never_sent :
    (∀ (cfg : Config) (env : Env) (f0 : Files),
        emptySnippets (monitor_and_fix cfg env f0).events = true) ∧
    sourceContext 3 (some [("src/main.cpp", "int main() \x7b return 0; \x7d")])
        "src/main.cpp:10:5: error: x" ≠ "" ∧
    sourceContext 1 (some [("src/main.cpp", "int main() \x7b return 0; \x7d")])
        "src/main.cpp:10:5: error: x" = "" ∧
    sourceContext 2 (some [("src/main.cpp", "int main() \x7b return 0; \x7d")])
        "src/main.cpp:10:5: error: x" = "" := by
  refine ⟨?_, by decide, rfl, rfl⟩
  intro cfg env f0
  unfold monitor_and_fix
  exact goLoop_all cfg env (loopIter_emptySnippets cfg env) _ _ _

/-- Claim C4, counterexample.  With `max_fix_attempts = 3` and a repository
that reports no workflow runs, the first discovery query happens at attempt
1 and returns the empty list; the next discovery query happens at attempt 2
— not at attempt 1 again as the claim states.  The `continue` after the
10-second backoff returns to the loop head, which increments the counter,
so all three attempts are consumed by discovery retries. -/
theorem C4_empty_runs_counterexample :
    discoveryAttempts (monitor_and_fix ⟨3, 30⟩ envEmptyRuns []).events = [1, 2, 3] ∧
    (monitor_and_fix ⟨3, 30⟩ envEmptyRuns []).events =
      [.sleepEv 1 15, .discovery 1 [], .sleepEv 1 10,
       .sleepEv 2 15, .discovery 2 [], .sleepEv 2 10,
       .sleepEv 3 15, .discovery 3 [], .sleepEv 3 10] ∧
    (monitor_and_fix ⟨3, 30⟩ envEmptyRuns []).outcome = .exhausted 3 := by
  decide

/-- Claim C4, amended.  An empty run list is retried after a shorter
backoff (10s, against the 15s grace period), but the retry consumes an
attempt: the attempt stamps of consecutive run-discovery queries always
increase by exactly one, so the counter at the retry is one greater than at
the query that returned the empty list. -/
theorem C4_attempt_consumed_on_empty_runs (cfg : Config) (env : Env) (f0 : Files) :
    discoveryAttempts (monitor_and_fix cfg env f0).events =
      List.range' 1 (discoveryAttempts (monitor_and_fix cfg env f0).events).length := by
  obtain ⟨k, hk, hd⟩ := goLoop_disc cfg env cfg.max_fix_attempts 0 f0
  unfold monitor_and_fix
  rw [hd]
  simp

/-- Claim C5, counterexample.  With a 0-second budget and a run that stays
`in_progress`, attempt 1 times out, but the loop does not remediate: it
fetches no logs and calls no advisor; the re-queried status has no
conclusion, so the attempt falls into the "Unknown build status" branch
(lines 921-922) and the loop moves on. -/
theorem C5_timeout_counterexample :
    Event.timeoutHit 1 ∈ (monitor_and_fix ⟨1, 0⟩ envStuck []).events ∧
    advisorAttempts (monitor_and_fix ⟨1, 0⟩ envStuck []).events = [] ∧
    fetchLogAttempts (monitor_and_fix ⟨1, 0⟩ envStuck []).events = [] ∧
    Event.unknownStatus 1 none ∈ (monitor_and_fix ⟨1, 0⟩ envStuck []).events ∧
    (monitor_and_fix ⟨1, 0⟩ envStuck []).outcome = .exhausted 1 := by
  decide

/-- Claim C5, amended.  A run that never completes within the budget does
not raise and does not hang: every attempt exits its poll loop through the
timeout check, the loop ends exhausted after exactly `max_fix_attempts`
attempts with the files untouched — but each such attempt takes the
unknown-status branch, never the remediation path: no logs are fetched and
the advisor is never invoked. -/
theorem C5_timeout_unknown_branch (cfg : Config) (env : Env) (f0 : Files)
    (hruns : ∀ a, (env.runs a).isEmpty = false)
    (hpoll : ∀ a i, (env.pollStatus a i).status ≠ some "completed")
    (hfin1 : ∀ a, (env.finalStatus a).conclusion ≠ some "success")
    (hfin2 : ∀ a, (env.finalStatus a).conclusion ≠ some "failure")
    (hfin3 : ∀ a, (env.finalStatus a).conclusion ≠ some "cancelled") :
    (monitor_and_fix cfg env f0).outcome = .exhausted cfg.max_fix_attempts ∧
    (monitor_and_fix cfg env f0).files = f0 ∧
    timeoutAttempts (monitor_and_fix cfg env f0).events =
      List.range' 1 cfg.max_fix_attempts ∧
    advisorAttempts (monitor_and_fix cfg env f0).events = [] ∧
    fetchLogAttempts (monitor_and_fix cfg env f0).events = [] := by
  unfold monitor_and_fix
  exact goLoop_stuck cfg env hruns hpoll hfin1 hfin2 hfin3
    cfg.max_fix_attempts 0 f0 (by omega)

/-- Witness for the amended claim C5, at `max_fix_attempts = 2`,
`github_timeout = 0` and the concrete never-completing environment. -/
theorem C5_timeout_unknown_branch_witness :
    (monitor_and_fix ⟨2, 0⟩ envStuck []).outcome = .exhausted 2 ∧
    timeoutAttempts (monitor_and_fix ⟨2, 0⟩ envStuck []).events = List.range' 1 2 ∧
    advisorAttempts (monitor_and_fix ⟨2, 0⟩ envStuck []).events = [] := by
  have h := C5_timeout_unknown_branch ⟨2, 0⟩ envStuck []
    (fun a => by simp [envStuck]) (fun a i => by simp [envStuck])
    (fun a => by simp [envStuck]) (fun a => by simp [envStuck])
    (fun a => by simp [envStuck])
  exact ⟨h.1, h.2.2.1, h.2.2.2.1⟩

/-- Claim C6 (confirmed).  The attempt stamps of the run-discovery queries
form the contiguous range `1, ..., k` for some `k ≤ max_fix_attempts`: the
counter advances by exactly one per iteration, and the loop — a total
function — performs at most `max_fix_attempts` iterations for every
environment, i.e. for every sequence of CI outcomes.  Each iteration's
inner polling is wall-clock bounded: the elapsed poll time never exceeds
the configured timeout plus one 10-second poll interval. -/
theorem C6_bounded_attempts (cfg : Config) (env : Env) (f0 : Files) :
    (∃ k, k ≤ cfg.max_fix_attempts ∧
      discoveryAttempts (monitor_and_fix cfg env f0).events = List.range' 1 k) ∧
    ∀ a, (pollUntilDone env a cfg.github_timeout).elapsed ≤ cfg.github_timeout + 10 := by
  constructor
  · obtain ⟨k, hk, hd⟩ := goLoop_disc cfg env cfg.max_fix_attempts 0 f0
    exact ⟨k, hk, hd⟩
  · intro a
    exact pollUntilDone_elapsed_le env a cfg.github_timeout

/-- Claim C7 (confirmed).  If the advisor was consulted at an attempt `a`
at or past `max_fix_attempts - 1` and no repository write at `a` succeeded
(no build file was updated in that remediation round), the loop stops at
attempt `a` without success — Exhausted — and never queries the run list at
a later attempt: in particular, with `max_fix_attempts = 3` and nothing
updated at attempt 2, there is no attempt 3. -/
theorem C7_no_update_early_exit (cfg : Config) (env : Env) (f0 : Files)
    (a : Nat) (lg ctx : String)
    (hmax : cfg.max_fix_attempts - 1 ≤ a)
    (hadv : Event.advisorCall a lg ctx ∈ (monitor_and_fix cfg env f0).events)
    (hw : noOkWriteAt a (monitor_and_fix cfg env f0).events = true) :
    (monitor_and_fix cfg env f0).outcome = .exhausted a ∧
    noDiscoveryAfter a (monitor_and_fix cfg env f0).events = true := by
  unfold monitor_and_fix at hadv hw ⊢
  exact goLoop_c7 cfg env cfg.max_fix_attempts 0 f0 a lg ctx hmax hw hadv

/-- Witness for claim C7: `max_fix_attempts = 3`, every build fails, the
advisor proposes no file change — the loop exits at attempt 2. -/
theorem C7_no_update_early_exit_witness :
    (monitor_and_fix ⟨3, 0⟩ envNoFix []).outcome = .exhausted 2 ∧
    noDiscoveryAfter 2 (monitor_and_fix ⟨3, 0⟩ envNoFix []).events = true :=
  C7_no_update_early_exit ⟨3, 0⟩ envNoFix [] 2 "err" ""
    (by decide) (by decide) (by decide)

/-- Claim C8 (confirmed).  The deterministic fallback analysis on the
single file `main.cpp` including `<curl/curl.h>` yields dependencies
`["curl"]`, C++ standard `"17"` and source files `["main.cpp"]`; and in
general a library is in the fallback's dependency set exactly when one of
the four fixed patterns occurs in some file's content. -/
theorem C8_fallback_analysis :
    fallback_analysis [("main.cpp", "#include <curl/curl.h>\nint main() \x7b return 0; \x7d")] =
      { dependencies := ["curl"], cpp_standard := "17",
        source_files := ["main.cpp"], special_requirements := "" } ∧
    ∀ (files : Files) (d : String),
      d ∈ (fallback_analysis files).dependencies ↔
        (d = "boost" ∧ ∃ fc ∈ files, strContains "#include <boost" fc.2 = true) ∨
        (d = "openssl" ∧ ∃ fc ∈ files, strContains "#include <openssl" fc.2 = true) ∨
        (d = "curl" ∧ ∃ fc ∈ files, strContains "#include <curl" fc.2 = true) ∨
        (d = "nlohmann-json" ∧ ∃ fc ∈ files, strContains "nlohmann/json" fc.2 = true) := by
  constructor
  · decide
  · intro files d
    unfold fallback_analysis
    dsimp only
    rw [scan_deps_mem]
    refine ⟨fun h => ?_, fun h => Or.inr h⟩
    rcases h with h | h
    · exact absurd h (List.not_mem_nil d)
    · exact h

/-- Claim C9, counterexample.  The payload is valid JSON (it parses to the
object with one field `a` holding the string `` ``` ``); wrapped in a
labelled fenced block, extraction stops at the fence characters inside the
string literal and returns a prefix that no longer parses. -/
theorem C9_fence_inside_payload_counterexample :
    parseJson "\x7b\"a\":\"```\"\x7d" = some (JVal.jobj [("a", JVal.jstr "```")]) ∧
    extract_json ("```json\n\x7b\"a\":\"```\"\x7d\n```") = "\x7b\"a\":\"" ∧
    parseJson (extract_json ("```json\n\x7b\"a\":\"```\"\x7d\n```")) = none := by
  exact ⟨rfl, rfl, rfl⟩

/-- Claim C9, amended.  Extraction tries, in order, the labelled fenced
block, any fenced block, the brace-delimited substring, and the raw text
(definition `extract_json_list`); and for every brace-delimited payload
that contains no fence `` ``` ``, extraction from the labelled fenced
wrapping and extraction from the raw payload both return the payload
itself, so both parse to whatever the payload parses to.  (The
counterexample shows the restriction to fence-free payloads is needed.) -/
theorem C9_extraction_roundtrip (q : List Char)
    (h : listContains ticks ('\x7b' :: q ++ ['\x7d']) = false) :
    extract_json_list
        (ticksJson ++ ('\n' :: (('\x7b' :: q ++ ['\x7d']) ++ '\n' :: ticks)))
      = '\x7b' :: q ++ ['\x7d'] ∧
    extract_json_list ('\x7b' :: q ++ ['\x7d']) = '\x7b' :: q ++ ['\x7d'] ∧
    parseJsonL (extract_json_list
        (ticksJson ++ ('\n' :: (('\x7b' :: q ++ ['\x7d']) ++ '\n' :: ticks))))
      = parseJsonL ('\x7b' :: q ++ ['\x7d']) := by
  refine ⟨extract_wrapped q h, extract_raw q h, ?_⟩
  rw [extract_wrapped q h]

/-- Witness for the amended claim C9, at the payload `{"a":1}`. -/
theorem C9_extraction_roundtrip_witness :
    extract_json_list
        (ticksJson ++ ('\n' :: (('\x7b' :: ("\"a\":1").data ++ ['\x7d']) ++ '\n' :: ticks)))
      = '\x7b' :: ("\"a\":1").data ++ ['\x7d'] ∧
    extract_json_list ('\x7b' :: ("\"a\":1").data ++ ['\x7d'])
      = '\x7b' :: ("\"a\":1").data ++ ['\x7d'] := by
  have h := C9_extraction_roundtrip ("\"a\":1").data (by decide)
  exact ⟨h.1, h.2.1⟩

/-- Claim C10 (confirmed).  The fallback generation's workflow text is the
fixed ubuntu-latest-only template, independent of the target-OS list (and
of everything else); its `vcpkg.json` text is fully determined by the
project name lowercased with spaces replaced by hyphens together with the
dependency list of the analysis. -/
theorem C10_fallback_generation (n n' : String) (a a' : Analysis)
    (t t' : List String)
    (hn : pyHyphen (pyLower n) = pyHyphen (pyLower n'))
    (hd : a.dependencies = a'.dependencies) :
    getKey? (fallback_generation n a t) "workflow.yml" = some workflowTemplate ∧
    getKey? (fallback_generation n a t) "workflow.yml"
      = getKey? (fallback_generation n a t') "workflow.yml" ∧
    getKey? (fallback_generation n a t) "vcpkg.json"
      = getKey? (fallback_generation n' a' t') "vcpkg.json" := by
  refine ⟨rfl, rfl, ?_⟩
  show some (vcpkgDump (pyHyphen (pyLower n)) a.dependencies)
      = some (vcpkgDump (pyHyphen (pyLower n')) a'.dependencies)
  rw [hn, hd]

/-- Witness for claim C10: two names agreeing after normalisation, two
analyses agreeing on dependencies, two different target-OS lists. -/
theorem C10_fallback_generation_witness :
    getKey? (fallback_generation "My App" ⟨["curl"], "17", ["main.cpp"], ""⟩
        ["ubuntu", "windows"]) "vcpkg.json"
      = getKey? (fallback_generation "my APP" ⟨["curl"], "20", [], "special"⟩
        ["macos"]) "vcpkg.json" :=
  (C10_fallback_generation "My App" "my APP"
    ⟨["curl"], "17", ["main.cpp"], ""⟩ ⟨["curl"], "20", [], "special"⟩
    ["ubuntu", "windows"] ["macos"] (by decide) rfl).2.2
